import Mathlib

/-!
Verification development for the memo-app persistence core.

The embedding models, from the TypeScript sources:
  - src/utils/idUtils.ts        (isValidId)
  - src/utils/storage.ts        (MemoStorage: getMemos, saveMemos, saveMemo,
                                 getMemoById, updateMemo)
  - src/utils/textUtils.ts      (searchInText)
  - src/hooks/useMemos.ts       (exportMemos, filteredMemos)
  - src/hooks/useAutoSave.ts    (debounced, retried auto-save state machine)

Modelling conventions:
  - JavaScript Date values are modelled as Int (milliseconds); the host
    functions Date.prototype.toISOString and new Date(string) are abstract
    parameters iso : Int -> String and dv : String -> Int.
  - The persisted localStorage value is modelled at the JSON level:
    Raw = Option (Except Unit JValue).  none is a missing key,
    some (.error ()) is a present value on which JSON.parse throws a
    SyntaxError, and some (.ok v) is a present value parsing to v.
  - Thrown StorageError values are modelled with Except; on a thrown error
    the stored value is unchanged (persistRun).
  - Array.prototype.sort with the comparator (a, b) => b.updatedAt - a.updatedAt
    is modelled by insertion sort with the relation memoGE; the spec leaves
    tie order unspecified and no claim depends on it.
-/

namespace MemoApp

/-- SaveStatus from src/types/memo.ts. -/
inductive SaveStat where
  | idle
  | typing
  | saving
  | saved
  | error
deriving DecidableEq

/-- StorageError type tags from src/types/memo.ts. -/
inductive StorageErrorType where
  | QUOTA_EXCEEDED
  | PARSE_ERROR
  | NOT_FOUND
  | UNKNOWN
deriving DecidableEq

/-- StorageError from src/types/memo.ts (originalError omitted: the claims
only concern the tag and the fact that an error is raised). -/
structure StorageError where
  type : StorageErrorType
  message : String
deriving DecidableEq

/-- Memo from src/types/memo.ts; Date fields as Int milliseconds. -/
structure Memo where
  id : String
  content : String
  createdAt : Int
  updatedAt : Int
deriving DecidableEq

/-- Error messages from src/utils/constants.ts. -/
def STORAGE_QUOTA_EXCEEDED_MSG : String := "ストレージ容量が不足しています。古いメモを削除してください。"

def STORAGE_PARSE_ERROR_MSG : String := "データの読み込みに失敗しました。"

def MEMO_NOT_FOUND_MSG : String := "メモが見つかりません。"

def UNKNOWN_ERROR_MSG : String := "予期しないエラーが発生しました。"

/-- STORAGE_QUOTA_LIMIT from src/utils/constants.ts: 5 * 1024 * 1024 bytes. -/
def STORAGE_QUOTA_LIMIT : Nat := 5 * 1024 * 1024

/-- Splitting a character list at a separator, as String.prototype.split
with a one-character separator: split of the empty string is one empty
segment, adjacent separators yield empty segments. -/
def splitOnChar (sep : Char) : List Char → List (List Char)
  | [] => [[]]
  | c :: cs =>
    let r := splitOnChar sep cs
    if c = sep then [] :: r
    else
      match r with
      | [] => [[c]]
      | h :: t => (c :: h) :: t

/-- Hex digit test for the UUID regex character class with the i flag. -/
def isHexChar (c : Char) : Bool :=
  (('0' ≤ c) && (c ≤ '9')) || (('a' ≤ c) && (c ≤ 'f')) || (('A' ≤ c) && (c ≤ 'F'))

/-- isValidId from src/utils/idUtils.ts: the UUID-v4 shape
8-4-4-4-12 hex groups, third group starting with 4, fourth group starting
with one of 8, 9, a, b (case-insensitive). -/
def isValidId (s : String) : Bool :=
  match splitOnChar '-' s.data with
  | [g1, g2, g3, g4, g5] =>
    (g1.length == 8) && (g2.length == 4) && (g3.length == 4) &&
    (g4.length == 4) && (g5.length == 12) &&
    (g1 ++ g2 ++ g3 ++ g4 ++ g5).all isHexChar &&
    (match g3 with
     | c :: _ => c == '4'
     | [] => false) &&
    (match g4 with
     | c :: _ => (c == '8') || (c == '9') || (c == 'a') || (c == 'b') || (c == 'A') || (c == 'B')
     | [] => false)
  | _ => false

/-- Parsed JSON values (the result of JSON.parse). -/
inductive JValue where
  | null
  | bool (b : Bool)
  | num (n : Int)
  | str (s : String)
  | arr (items : List JValue)
  | obj (fields : List (String × JValue))

/-- Property lookup on a parsed JSON object (the combination of the
JavaScript in-operator and property access used by isValidMemoData). -/
def jGet (v : JValue) (k : String) : Option JValue :=
  match v with
  | .obj fields => (fields.find? (fun p => p.1 == k)).map (fun p => p.2)
  | _ => none

/-- MemoStorage.isValidMemoData from src/utils/storage.ts: the value is an
object whose id, content, createdAt and updatedAt properties exist and are
strings, and whose id passes isValidId. -/
def isValidMemoData (v : JValue) : Bool :=
  match jGet v "id", jGet v "content", jGet v "createdAt", jGet v "updatedAt" with
  | some (.str i), some (.str _), some (.str _), some (.str _) => isValidId i
  | _, _, _, _ => false

/-- String field access on a validated record (guaranteed present by
isValidMemoData). -/
def getStrD (v : JValue) (k : String) : String :=
  match jGet v k with
  | some (.str s) => s
  | _ => ""

/-- The record-to-Memo conversion inside MemoStorage.getMemos; dv models
new Date(string).getTime(). -/
def toMemo (dv : String → Int) (v : JValue) : Memo :=
  { id := getStrD v "id"
    content := getStrD v "content"
    createdAt := dv (getStrD v "createdAt")
    updatedAt := dv (getStrD v "updatedAt") }

/-- The descending-updatedAt order used by the sort comparator
(a, b) => b.updatedAt - a.updatedAt in MemoStorage.getMemos. -/
def memoGE (a b : Memo) : Prop := b.updatedAt ≤ a.updatedAt

instance : DecidableRel memoGE := fun a b => inferInstanceAs (Decidable (b.updatedAt ≤ a.updatedAt))

instance : IsTotal Memo memoGE := ⟨fun a b => le_total b.updatedAt a.updatedAt⟩

instance : IsTrans Memo memoGE := ⟨fun _ _ _ h h2 => le_trans h2 h⟩

/-- The persisted stored value under STORAGE_KEY, at the JSON level:
none models a missing key, some (.error ()) a present value on which
JSON.parse throws a SyntaxError, some (.ok v) a present value parsing
to v. -/
abbrev Raw := Option (Except Unit JValue)

/-- MemoStorage.getMemos from src/utils/storage.ts (browser context):
missing key yields an empty collection; a SyntaxError from JSON.parse is
mapped to PARSE_ERROR; a parsed value that is not an array, or an array
with an element failing isValidMemoData, raises a plain Error which the
catch block maps to UNKNOWN (it is not a SyntaxError); on success the
memos are sorted by updatedAt descending.  The source throws on the first
invalid element; since the whole read fails either way this is the
all-elements check below. -/
def getMemos (dv : String → Int) (raw : Raw) : Except StorageError (List Memo) :=
  match raw with
  | none => .ok []
  | some (.error _) => .error ⟨.PARSE_ERROR, STORAGE_PARSE_ERROR_MSG⟩
  | some (.ok (.arr items)) =>
    if items.all isValidMemoData then
      .ok (List.insertionSort memoGE (items.map (toMemo dv)))
    else
      .error ⟨.UNKNOWN, UNKNOWN_ERROR_MSG⟩
  | some (.ok _) => .error ⟨.UNKNOWN, UNKNOWN_ERROR_MSG⟩

/-- JSON.stringify escaping of one character inside a string literal. -/
def hexDigitChar (n : Nat) : Char :=
  if n < 10 then Char.ofNat (48 + n) else Char.ofNat (87 + n)

/-- JSON.stringify escaping of one character inside a string literal. -/
def jsonEscapeChar (c : Char) : List Char :=
  if c = '"' then ['\\', '"']
  else if c = '\\' then ['\\', '\\']
  else if c = '\x08' then ['\\', 'b']
  else if c = '\x09' then ['\\', 't']
  else if c = '\x0a' then ['\\', 'n']
  else if c = '\x0c' then ['\\', 'f']
  else if c = '\x0d' then ['\\', 'r']
  else if c.toNat < 32 then ['\\', 'u', '0', '0', hexDigitChar (c.toNat / 16), hexDigitChar (c.toNat % 16)]
  else [c]

/-- JSON.stringify escaping of a whole string literal body. -/
def jsonEscape (s : String) : String :=
  String.mk (s.data.foldr (fun c acc => jsonEscapeChar c ++ acc) [])

/-- One serialized record, as produced by JSON.stringify with the Date
replacer in MemoStorage.saveMemos; iso models Date.prototype.toISOString. -/
def serializeMemo (iso : Int → String) (m : Memo) : String :=
  "\x7b\"id\":\"" ++ jsonEscape m.id ++
  "\",\"content\":\"" ++ jsonEscape m.content ++
  "\",\"createdAt\":\"" ++ jsonEscape (iso m.createdAt) ++
  "\",\"updatedAt\":\"" ++ jsonEscape (iso m.updatedAt) ++ "\"\x7d"

/-- Comma-joining of serialized array elements. -/
def joinWith (sep : String) : List String → String
  | [] => ""
  | [s] => s
  | s :: rest => s ++ sep ++ joinWith sep rest

/-- JSON.stringify of the whole collection in MemoStorage.saveMemos. -/
def serializeMemos (iso : Int → String) (ms : List Memo) : String :=
  "[" ++ joinWith "," (ms.map (serializeMemo iso)) ++ "]"

/-- UTF-8 byte length of a character list. -/
def utf8Len : List Char → Nat
  | [] => 0
  | c :: cs => c.utf8Size + utf8Len cs

/-- new Blob([data]).size in MemoStorage.saveMemos: the UTF-8 byte size of
the serialized string. -/
def blobSize (s : String) : Nat := utf8Len s.data

/-- The JSON value a serialized collection parses back to. -/
def memoToJ (iso : Int → String) (m : Memo) : JValue :=
  .obj [("id", .str m.id), ("content", .str m.content),
        ("createdAt", .str (iso m.createdAt)), ("updatedAt", .str (iso m.updatedAt))]

/-- The stored value after a successful write of a collection. -/
def rawOfMemos (iso : Int → String) (ms : List Memo) : Raw :=
  some (.ok (.arr (ms.map (memoToJ iso))))

/-- MemoStorage.saveMemos from src/utils/storage.ts: serializes the whole
collection, computes the byte size, rejects with QUOTA_EXCEEDED if it
exceeds STORAGE_QUOTA_LIMIT before writing, and otherwise replaces the
stored value with the serialization. -/
def saveMemos (iso : Int → String) (ms : List Memo) : Except StorageError Raw :=
  let data := serializeMemos iso ms
  if blobSize data > STORAGE_QUOTA_LIMIT then
    .error ⟨.QUOTA_EXCEEDED, STORAGE_QUOTA_EXCEEDED_MSG⟩
  else
    .ok (rawOfMemos iso ms)

/-- The effect of MemoStorage.saveMemos on the stored value: a thrown
error leaves the previously stored value in place. -/
def persistRun (iso : Int → String) (raw : Raw) (ms : List Memo) : Raw :=
  match saveMemos iso ms with
  | .ok r => r
  | .error _ => raw

/-- MemoStorage.saveMemo from src/utils/storage.ts, returning the
collection that is persisted: reads all memos, replaces the record at the
index found by findIndex on id or appends, then writes via saveMemos. -/
def saveMemoW (dv : String → Int) (iso : Int → String) (raw : Raw) (memo : Memo) :
    Except StorageError (List Memo) :=
  match getMemos dv raw with
  | .error e => .error e
  | .ok ms =>
    let ms' :=
      match ms.findIdx? (fun m => m.id == memo.id) with
      | some i => ms.set i memo
      | none => ms ++ [memo]
    match saveMemos iso ms' with
    | .error e => .error e
    | .ok _ => .ok ms'

/-- MemoStorage.getMemoById from src/utils/storage.ts: an id failing
isValidId yields undefined; a thrown read error is caught and yields
undefined; otherwise the first memo with the id, or undefined. -/
def getMemoById (dv : String → Int) (raw : Raw) (idq : String) : Option Memo :=
  if isValidId idq then
    match getMemos dv raw with
    | .error _ => none
    | .ok ms => ms.find? (fun m => m.id == idq)
  else none

/-- MemoStorage.updateMemo from src/utils/storage.ts, returning the
persisted collection: NOT_FOUND if getMemoById yields undefined, else the
patch is merged, updatedAt is set to the current time (the parameter now
models getCurrentDate), and saveMemo persists. -/
def updateMemoW (dv : String → Int) (iso : Int → String) (now : Int) (raw : Raw)
    (idq : String) (patch : Option String) : Except StorageError (List Memo) :=
  match getMemoById dv raw idq with
  | none => .error ⟨.NOT_FOUND, MEMO_NOT_FOUND_MSG⟩
  | some m =>
    saveMemoW dv iso raw { m with content := patch.getD m.content, updatedAt := now }

/-- MemoStorage.updateMemo at the stored-value level: the new stored value
on success. -/
def updateMemoRaw (dv : String → Int) (iso : Int → String) (now : Int) (raw : Raw)
    (idq : String) (patch : Option String) : Except StorageError Raw :=
  (updateMemoW dv iso now raw idq patch).map (rawOfMemos iso)

/-- String.prototype.toLowerCase, character by character. -/
def lowerStr (s : String) : String := String.mk (s.data.map Char.toLower)

/-- String.prototype.trim: strip leading and trailing whitespace. -/
def trimStr (s : String) : String :=
  String.mk (((s.data.dropWhile Char.isWhitespace).reverse.dropWhile Char.isWhitespace).reverse)

/-- Contiguous-subsequence (substring) test: String.prototype.includes at
the character-list level. -/
def isInfixOfB (needle : List Char) : List Char → Bool
  | [] => needle.isEmpty
  | c :: cs => needle.isPrefixOf (c :: cs) || isInfixOfB needle cs

/-- searchInText from src/utils/textUtils.ts: an empty or whitespace-only
query matches everything; an empty text matches nothing else; otherwise a
case-folded (unless caseSensitive) substring containment test. -/
def searchInText (text query : String) (caseSensitive : Bool) : Bool :=
  if (query == "") || (trimStr query == "") then true
  else if text == "" then false
  else
    let searchText := if caseSensitive then text else lowerStr text
    let searchQuery := if caseSensitive then query else lowerStr query
    isInfixOfB searchQuery.data searchText.data

/-- The spec-side matcher of 4.1 SearchFilter, stated directly as
lowercase substring containment ('the lowercase form of text contains the
lowercase form of query'). -/
def lowerContains (text query : String) : Bool :=
  isInfixOfB (lowerStr query).data (lowerStr text).data

/-- DEFAULT placeholder title from src/utils/constants.ts
(the fixed placeholder of the markdown export). -/
def UNTITLED_MEMO : String := "無題のメモ"

/-- memo.content.split of one newline, first element: the heading source
expression in exportMemos. -/
def firstLineOf (content : String) : String :=
  match splitOnChar '\x0a' content.data with
  | [] => ""
  | h :: _ => String.mk h

/-- The markdown heading in exportMemos from src/hooks/useMemos.ts:
content.split newline at index 0, with the or-else placeholder when that
first element is the empty string (falsy). -/
def mdTitle (content : String) : String :=
  if firstLineOf content == "" then UNTITLED_MEMO else firstLineOf content

/-- One markdown section per memo in exportMemos from src/hooks/useMemos.ts;
fmtDate models Date.prototype.toLocaleDateString. -/
def mdSection (fmtDate : Int → String) (m : Memo) : String :=
  "# " ++ mdTitle m.content ++ "\n\n" ++ m.content ++ "\n\n*更新日: " ++
  fmtDate m.updatedAt ++ "*\n\n---\n"

/-- exportMemos with the markdown format from src/hooks/useMemos.ts:
one section per cached memo, joined with a newline. -/
def exportMemosMarkdown (fmtDate : Int → String) (ms : List Memo) : String :=
  joinWith "\n" (ms.map (mdSection fmtDate))

/-- Modelled from the spec words of 4.4 export: the first line of the
content, written independently as the longest newline-free prefix. -/
def specFirstLine (content : String) : String :=
  String.mk (content.data.takeWhile (fun c => !(c == '\x0a')))

/-- Modelled from the spec words of C4 as amended: the heading is the
first line of the content, or the placeholder when that line is empty. -/
def amendedHeading (content : String) : String :=
  if specFirstLine content == "" then UNTITLED_MEMO else specFirstLine content

/-- Modelled from the claim words of C4 as stated: the heading is the
first non-blank line of the content, or the placeholder if the content is
blank. -/
def claimedHeading (content : String) : String :=
  match (splitOnChar '\x0a' content.data).find? (fun l => !(trimStr (String.mk l) == "")) with
  | some l => String.mk l
  | none => UNTITLED_MEMO

/-- The markdown export as claim C4 states it: sections with the
first-non-blank-line heading, the full content as body, and the formatted
updatedAt trailer. -/
def claimedSection (fmtDate : Int → String) (m : Memo) : String :=
  "# " ++ claimedHeading m.content ++ "\n\n" ++ m.content ++ "\n\n*更新日: " ++
  fmtDate m.updatedAt ++ "*\n\n---\n"

/-- The markdown export as claim C4 states it. -/
def claimedExportMarkdown (fmtDate : Int → String) (ms : List Memo) : String :=
  joinWith "\n" (ms.map (claimedSection fmtDate))

/-- The markdown export as amended: the heading is the first line or the
placeholder when that line is empty. -/
def amendedSection (fmtDate : Int → String) (m : Memo) : String :=
  "# " ++ amendedHeading m.content ++ "\n\n" ++ m.content ++ "\n\n*更新日: " ++
  fmtDate m.updatedAt ++ "*\n\n---\n"

/-- The markdown export as amended. -/
def amendedExportMarkdown (fmtDate : Int → String) (ms : List Memo) : String :=
  joinWith "\n" (ms.map (amendedSection fmtDate))

/-!
The auto-save scheduler of src/hooks/useAutoSave.ts, as used by the Home
component (src/app/page.tsx): onSave is a fresh closure every render that
commits currentMemo.content as captured by that render, data is
currentMemo.content, enabled is true while a memo is selected.  The hook
runs on a single event loop; the machine below is its event-step function.

State fields are the hook's useState/useRef cells plus the pending timers.
A timer carries the content captured by the performSave closure of the
render that armed it: the debounce timer is re-armed with a fresh closure
whenever data changes, while the retry setTimeout in performSave captures
the performSave of the render that started the failing attempt, hence that
attempt's payload.

Render/effect fidelity: onSave has a new identity every render, so the
debounce effect re-runs on every render of Home; its cleanup clears the
pending debounce timer and the body only re-arms it when data changed.
Consequently a re-render caused by setSaveStatus (an observe that moves
status to typing from idle, saved or error; a settled commit that moves it
to saved or error) cancels a pending debounce timer without re-arming it.

Events: observe s is a render with data = s (an edit when s differs from
lastData, any other re-render when equal); debounceFire and retryFire are
timer expirations (no-ops when the timer is not armed); flush is the
returned save function; settle ok is the in-flight commit resolving.
-/

/-- A commit attempt: the payload passed to the commit function, the value
of lastData at the moment the attempt started, and whether the attempt was
started by the retry timer. -/
structure AttemptRec where
  payload : String
  latestAtStart : String
  viaRetry : Bool
deriving DecidableEq

/-- The useAutoSave hook state (browser context, enabled = true). -/
structure ASState where
  saveStatus : SaveStat
  lastSavedSet : Bool
  retryCount : Nat
  lastData : String
  isSaving : Bool
  inFlight : Option String
  debounceTimer : Option String
  retryTimer : Option String
  attempts : List AttemptRec
deriving DecidableEq

/-- The initial hook state at mount with initial data d. -/
def asInit (d : String) : ASState :=
  { saveStatus := .idle
    lastSavedSet := false
    retryCount := 0
    lastData := d
    isSaving := false
    inFlight := none
    debounceTimer := none
    retryTimer := none
    attempts := [] }

/-- Events driving the hook. -/
inductive AEvent where
  | observe (s : String)
  | debounceFire
  | retryFire
  | flush
  | settle (ok : Bool)

/-- performSave from src/hooks/useAutoSave.ts up to the await: an early
return while a commit is in flight, otherwise status saving, the commit
function invoked with the closure-captured payload.  When the status
actually changes the induced re-render cancels a pending debounce timer
(see the fidelity note above). -/
def startAttempt (st : ASState) (payload : String) (viaRetry : Bool) : ASState :=
  if st.isSaving then st
  else
    { st with
      isSaving := true
      saveStatus := .saving
      inFlight := some payload
      debounceTimer := if st.saveStatus = .saving then st.debounceTimer else none
      attempts := st.attempts ++ [⟨payload, st.lastData, viaRetry⟩] }

/-- One event step of the useAutoSave machine; mr is maxRetries. -/
def asStep (mr : Nat) (st : ASState) : AEvent → ASState
  | .observe s =>
    if s = st.lastData then
      { st with debounceTimer := none }
    else
      let st1 := { st with lastData := s }
      match st.saveStatus with
      | .typing => { st1 with debounceTimer := some s }
      | .saving => { st1 with debounceTimer := some s }
      | _ => { st1 with saveStatus := .typing, debounceTimer := none }
  | .debounceFire =>
    match st.debounceTimer with
    | none => st
    | some c => startAttempt { st with debounceTimer := none } c false
  | .retryFire =>
    match st.retryTimer with
    | none => st
    | some c => startAttempt { st with retryTimer := none } c true
  | .flush =>
    if st.isSaving then { st with debounceTimer := none }
    else startAttempt { st with debounceTimer := none } st.lastData false
  | .settle ok =>
    match st.inFlight with
    | none => st
    | some payload =>
      let st1 := { st with inFlight := none, isSaving := false }
      if ok then
        { st1 with
          saveStatus := .saved
          lastSavedSet := true
          retryCount := 0
          debounceTimer := none }
      else if st.retryCount < mr then
        { st1 with retryCount := st.retryCount + 1, retryTimer := some payload }
      else
        { st1 with saveStatus := .error, retryCount := 0, debounceTimer := none }

/-- Running the machine over an event list. -/
def asRun (mr : Nat) (st : ASState) (evs : List AEvent) : ASState :=
  evs.foldl (asStep mr) st

/-- Events that are not an observe and not a flush: timer expirations and
commit resolutions, the only event sources that need no new edit. -/
def isAutoEvent : AEvent → Bool
  | .observe _ => false
  | .flush => false
  | _ => true

/-- The invariant carrying claim C2's freshness property: an armed
debounce timer always carries the latest observed value, and every
non-retry attempt so far carried the latest observed value at its start. -/
def freshInv (st : ASState) : Prop :=
  (∀ c, st.debounceTimer = some c → c = st.lastData) ∧
  (∀ a ∈ st.attempts, a.viaRetry = false → a.payload = a.latestAtStart)

/-! Concrete inputs used by witnesses and counterexamples. -/

/-- A valid UUID-v4-shaped id. -/
def uuidA : String := "aaaaaaaa-aaaa-4aaa-8aaa-aaaaaaaaaaaa"

/-- A second valid UUID-v4-shaped id. -/
def uuidB : String := "bbbbbbbb-bbbb-4bbb-9bbb-bbbbbbbbbbbb"

/-- A stored record with a valid id. -/
def itemA : JValue :=
  .obj [("id", .str uuidA), ("content", .str "Note A"),
        ("createdAt", .str "aa"), ("updatedAt", .str "aa")]

/-- A second stored record with a valid id and a later date string. -/
def itemB : JValue :=
  .obj [("id", .str uuidB), ("content", .str "Note B"),
        ("createdAt", .str "aaaa"), ("updatedAt", .str "aaaa")]

/-- A stored record whose id is not UUID-v4-shaped. -/
def badItem : JValue :=
  .obj [("id", .str "not-a-uuid"), ("content", .str "x"),
        ("createdAt", .str "t"), ("updatedAt", .str "t")]

/-- A stored record missing the content, createdAt and updatedAt fields. -/
def missingFieldItem : JValue := .obj [("id", .str uuidA)]

/-- A concrete date-parse model: the length of the date string. -/
def dv0 : String → Int := fun s => Int.ofNat s.data.length

/-- A concrete date-format model. -/
def iso0 : Int → String := fun _ => "t"

/-- A date-format model paired with dvW as an exact roundtrip:
nonnegative times serialize to that many letters, negative times to a
leading minus sign. -/
def isoW (t : Int) : String :=
  if t < 0 then String.mk ('-' :: List.replicate (-t).toNat 'a')
  else String.mk (List.replicate t.toNat 'a')

/-- The date-parse model inverting isoW. -/
def dvW (s : String) : Int :=
  match s.data with
  | '-' :: rest => -(Int.ofNat rest.length)
  | l => Int.ofNat l.length

/-- A concrete store holding itemA and itemB. -/
def rawAB : Raw := some (.ok (.arr [itemA, itemB]))

/-- A concrete toLocaleDateString model. -/
def fmt0 : Int → String := fun _ => "d"

/-- 5 MiB plus one byte. -/
def bigN : Nat := 5242881

/-- A content string of 5 MiB plus one byte. -/
def bigContent : String := String.mk (List.replicate bigN 'a')

/-- A single memo whose serialization exceeds the quota. -/
def bigMemo : Memo := { id := uuidA, content := bigContent, createdAt := 0, updatedAt := 0 }

/-- Claim C2's counterexample trace: an edit to A then B, the debounce
commit of B failing, an edit to C during the retry wait, and the retry
firing. -/
def evsC2 : List AEvent :=
  [.observe "A", .observe "B", .debounceFire, .settle false, .observe "C", .retryFire]

/-- Claim C5's counterexample trace: an edit to A then B, then the commit
function failing maxRetries = 3 consecutive times. -/
def evsC5 : List AEvent :=
  [.observe "A", .observe "B", .debounceFire, .settle false,
   .retryFire, .settle false, .retryFire, .settle false]

/-! ## Lemmas -/

theorem lowerStr_data (s : String) : (lowerStr s).data = s.data.map Char.toLower := rfl

theorem lowerStr_eq_empty {s : String} (h : s ≠ "") : lowerStr s ≠ "" := by
  intro hc
  apply h
  have hdata : s.data.map Char.toLower = [] := by
    have := String.ext_iff.mp hc
    simpa [lowerStr_data] using this
  have hnil : s.data = [] := by
    cases hd : s.data with
    | nil => rfl
    | cons c cs => rw [hd] at hdata; simp at hdata
  exact String.ext_iff.mpr (by simp [hnil])

/-- searchInText with a non-blank query on non-empty text is the plain
lowercase containment test. -/
theorem searchInText_nonblank (text query : String) (hq : trimStr query ≠ "") :
    searchInText text query false = lowerContains text query := by
  have hqne : query ≠ "" := fun h => hq (by rw [h]; rfl)
  have hcond : ((query == "") || (trimStr query == "")) = false := by
    simp [hqne, hq]
  by_cases ht : text = ""
  · subst ht
    have h1 : searchInText "" query false = false := by
      simp [searchInText, hcond]
    have h2 : lowerContains "" query = false := by
      have hne := lowerStr_eq_empty hqne
      have hnd : (lowerStr query).data ≠ [] := by
        intro hc
        exact hne (String.ext_iff.mpr (by simp [hc]))
      simp only [lowerContains]
      show isInfixOfB (lowerStr query).data (lowerStr "").data = false
      have hdn : (lowerStr "").data = [] := rfl
      rw [hdn]
      show (lowerStr query).data.isEmpty = false
      cases hl : (lowerStr query).data with
      | nil => exact absurd hl hnd
      | cons c cs => rfl
    rw [h1, h2]
  · have hcond2 : (text == "") = false := by simp [ht]
    simp [searchInText, lowerContains, hcond, hcond2]

/-! ## Claim theorems -/

/-- C6: matches(text, query) is true for every text when the query is
empty or whitespace-only; for a non-blank query it is true exactly when
the lowercase form of the text contains the lowercase form of the query
(plain substring containment, no tokenization). -/
theorem c6_matches (text query : String) :
    (trimStr query = "" → searchInText text query false = true) ∧
    (trimStr query ≠ "" → searchInText text query false = lowerContains text query) := by
  constructor
  · intro h
    simp [searchInText, h]
  · exact searchInText_nonblank text query

/-- C6 witness: the blank query matches, "hello" matches "Hello World" by
lowercase containment, and "xyz" does not match "Hello". -/
theorem c6_matches_witness :
    searchInText "Hello World" "" false = true ∧
    searchInText "Hello World" "hello" false = lowerContains "Hello World" "hello" ∧
    searchInText "Hello" "xyz" false = lowerContains "Hello" "xyz" := by
  refine ⟨(c6_matches "Hello World" "").1 (by rfl),
          (c6_matches "Hello World" "hello").2 (by decide),
          (c6_matches "Hello" "xyz").2 (by decide)⟩

/-- C8: every collection successfully returned by getMemos is ordered by
updatedAt descending. -/
theorem c8_sorted (dv : String → Int) (raw : Raw) (ms : List Memo)
    (h : getMemos dv raw = .ok ms) : List.Sorted memoGE ms := by
  match raw with
  | none =>
    simp only [getMemos, Except.ok.injEq] at h
    rw [← h]
    exact List.sorted_nil
  | some (.error _) => simp [getMemos] at h
  | some (.ok (.arr items)) =>
    simp only [getMemos] at h
    split at h
    · rw [Except.ok.injEq] at h
      rw [← h]
      exact List.sorted_insertionSort memoGE _
    · simp at h
  | some (.ok .null) => simp [getMemos] at h
  | some (.ok (.bool b)) => simp [getMemos] at h
  | some (.ok (.num n)) => simp [getMemos] at h
  | some (.ok (.str s)) => simp [getMemos] at h
  | some (.ok (.obj fs)) => simp [getMemos] at h

/-- C8 witness: reading back two records stored in ascending date order
yields them sorted by updatedAt descending. -/
theorem c8_sorted_witness :
    List.Sorted memoGE
      [⟨uuidB, "Note B", 4, 4⟩, ⟨uuidA, "Note A", 2, 2⟩] :=
  c8_sorted dv0 rawAB _ (by rfl)

/-- C9: getMemoById returns a not-found result rather than an error both
when the underlying read fails and when the id is absent, so on this path
corruption is indistinguishable from absence. -/
theorem c9_getMemoById (dv : String → Int) (raw : Raw) (idq : String) :
    (∀ e : StorageError, getMemos dv raw = .error e → getMemoById dv raw idq = none) ∧
    (∀ ms : List Memo, getMemos dv raw = .ok ms →
      ms.find? (fun m => m.id == idq) = none → getMemoById dv raw idq = none) := by
  constructor
  · intro e he
    simp only [getMemoById]
    split
    · rw [he]
    · rfl
  · intro ms hms hfind
    simp only [getMemoById]
    split
    · rw [hms]
      simp [hfind]
    · rfl

/-- C9 witness: a corrupted stored value (unparseable, so the read fails)
yields none, the same result as a lookup of an id that is absent. -/
theorem c9_getMemoById_witness :
    getMemoById dv0 (some (.error ())) uuidA = none ∧
    getMemoById dv0 rawAB "cccccccc-cccc-4ccc-8ccc-cccccccccccc" = none := by
  refine ⟨(c9_getMemoById dv0 (some (.error ())) uuidA).1
            ⟨.PARSE_ERROR, STORAGE_PARSE_ERROR_MSG⟩ (by rfl),
          (c9_getMemoById dv0 rawAB "cccccccc-cccc-4ccc-8ccc-cccccccccccc").2
            [⟨uuidB, "Note B", 4, 4⟩, ⟨uuidA, "Note A", 2, 2⟩] (by rfl) (by rfl)⟩

/-- C1 counterexample: a stored sequence holding a record whose id is not
UUID-v4-shaped makes getMemos fail with the UNKNOWN tag, not PARSE_ERROR
as the claim states (the validation failure raises a plain Error, and the
catch block maps only SyntaxError to PARSE_ERROR). -/
theorem c1_counterexample :
    getMemos dv0 (some (.ok (.arr [badItem]))) = .error ⟨.UNKNOWN, UNKNOWN_ERROR_MSG⟩ ∧
    StorageErrorType.UNKNOWN ≠ StorageErrorType.PARSE_ERROR :=
  ⟨rfl, by decide⟩

/-- C1 as amended: a stored value that is a sequence with any element
failing per-record validation fails the whole read (no part of the collection is returned)
with Unknown, as does a present value that is not a sequence; ParseError
is reserved for parse-level deserialization faults (a value on which
JSON.parse throws). -/
theorem c1_amended (dv : String → Int) :
    (∀ items : List JValue, items.all isValidMemoData = false →
      getMemos dv (some (.ok (.arr items))) = .error ⟨.UNKNOWN, UNKNOWN_ERROR_MSG⟩) ∧
    getMemos dv (some (.error ())) = .error ⟨.PARSE_ERROR, STORAGE_PARSE_ERROR_MSG⟩ ∧
    (∀ v : JValue, (∀ items : List JValue, v ≠ .arr items) →
      getMemos dv (some (.ok v)) = .error ⟨.UNKNOWN, UNKNOWN_ERROR_MSG⟩) := by
  refine ⟨fun items h => ?_, rfl, fun v hv => ?_⟩
  · simp [getMemos, h]
  · cases v with
    | arr items => exact absurd rfl (hv items)
    | null => rfl
    | bool b => rfl
    | num n => rfl
    | str s => rfl
    | obj fs => rfl

/-- C1 amended witness: a record missing required fields fails the whole
read with Unknown, and an unparseable stored value fails with ParseError. -/
theorem c1_amended_witness :
    getMemos dv0 (some (.ok (.arr [missingFieldItem, itemA]))) =
      .error ⟨.UNKNOWN, UNKNOWN_ERROR_MSG⟩ ∧
    getMemos dv0 (some (.error ())) = .error ⟨.PARSE_ERROR, STORAGE_PARSE_ERROR_MSG⟩ :=
  ⟨(c1_amended dv0).1 [missingFieldItem, itemA] (by rfl), (c1_amended dv0).2.1⟩

/-- The head segment of splitOnChar is the longest separator-free prefix. -/
theorem splitOnChar_head (sep : Char) (l : List Char) :
    ∃ t, splitOnChar sep l = (l.takeWhile (fun c => !(c == sep))) :: t := by
  induction l with
  | nil => exact ⟨[], rfl⟩
  | cons c cs ih =>
    obtain ⟨t, ht⟩ := ih
    by_cases hc : c = sep
    · refine ⟨splitOnChar sep cs, ?_⟩
      simp [splitOnChar, hc, List.takeWhile_cons]
    · refine ⟨t, ?_⟩
      simp only [splitOnChar, ht, List.takeWhile_cons]
      simp [hc]

/-- The source heading expression takes the first line of the content. -/
theorem firstLineOf_eq_specFirstLine (content : String) :
    firstLineOf content = specFirstLine content := by
  obtain ⟨t, ht⟩ := splitOnChar_head '\x0a' content.data
  simp only [firstLineOf, specFirstLine, ht]

/-- C4 counterexample: for a memo whose content starts with a blank line
followed by text, the export emits the fixed placeholder heading, not the
first non-blank line as the claim states. -/
theorem c4_counterexample :
    mdTitle "\nHello" = UNTITLED_MEMO ∧
    claimedHeading "\nHello" = "Hello" ∧
    exportMemosMarkdown fmt0 [⟨uuidA, "\nHello", 0, 0⟩] ≠
      claimedExportMarkdown fmt0 [⟨uuidA, "\nHello", 0, 0⟩] := by
  refine ⟨rfl, rfl, ?_⟩
  decide

/-- C4 as amended: for every memo in the cache the markdown export emits a
section whose heading is the first line of the memo's content (the text
before the first newline), or the fixed placeholder if that first line is
empty, whose body is the full content, and whose trailer is the formatted
updatedAt. -/
theorem c4_amended (fmtDate : Int → String) (ms : List Memo) :
    exportMemosMarkdown fmtDate ms = amendedExportMarkdown fmtDate ms := by
  simp only [exportMemosMarkdown, amendedExportMarkdown]
  congr 1
  apply List.map_congr_left
  intro m _
  simp only [mdSection, amendedSection, mdTitle, amendedHeading,
    firstLineOf_eq_specFirstLine]

/-- One asStep preserves the debounce-freshness invariant. -/
theorem freshInv_step (mr : Nat) (st : ASState) (e : AEvent) (h : freshInv st) :
    freshInv (asStep mr st e) := by
  obtain ⟨hdeb, hatt⟩ := h
  cases e with
  | observe s =>
    simp only [asStep]
    by_cases hs : s = st.lastData
    · rw [if_pos hs]
      exact ⟨fun c hc => Option.noConfusion hc, hatt⟩
    · rw [if_neg hs]
      cases hss : st.saveStatus with
      | typing => exact ⟨fun c hc => (Option.some.inj hc).symm, hatt⟩
      | saving => exact ⟨fun c hc => (Option.some.inj hc).symm, hatt⟩
      | idle => exact ⟨fun c hc => Option.noConfusion hc, hatt⟩
      | saved => exact ⟨fun c hc => Option.noConfusion hc, hatt⟩
      | error => exact ⟨fun c hc => Option.noConfusion hc, hatt⟩
  | debounceFire =>
    cases hd : st.debounceTimer with
    | none =>
      simp only [asStep, hd]
      exact ⟨hdeb, hatt⟩
    | some c =>
      simp only [asStep, hd, startAttempt]
      by_cases hsv : st.isSaving
      · rw [if_pos hsv]
        exact ⟨fun c' hc' => Option.noConfusion hc', hatt⟩
      · rw [if_neg hsv]
        refine ⟨fun c' hc' => ?_, fun a ha hr => ?_⟩
        · rw [ite_self] at hc'
          exact Option.noConfusion hc'
        · rcases List.mem_append.mp ha with ha | ha
          · exact hatt a ha hr
          · rw [List.mem_singleton.mp ha]
            exact hdeb c hd
  | retryFire =>
    cases hd : st.retryTimer with
    | none =>
      simp only [asStep, hd]
      exact ⟨hdeb, hatt⟩
    | some c =>
      simp only [asStep, hd, startAttempt]
      by_cases hsv : st.isSaving
      · rw [if_pos hsv]
        exact ⟨hdeb, hatt⟩
      · rw [if_neg hsv]
        refine ⟨fun c' hc' => ?_, fun a ha hr => ?_⟩
        · by_cases hst : st.saveStatus = SaveStat.saving
          · rw [if_pos hst] at hc'
            exact hdeb c' hc'
          · rw [if_neg hst] at hc'
            exact Option.noConfusion hc'
        · rcases List.mem_append.mp ha with ha | ha
          · exact hatt a ha hr
          · rw [List.mem_singleton.mp ha] at hr
            exact Bool.noConfusion hr
  | flush =>
    simp only [asStep]
    by_cases hsv : st.isSaving
    · rw [if_pos hsv]
      exact ⟨fun c hc => Option.noConfusion hc, hatt⟩
    · rw [if_neg hsv]
      simp only [startAttempt]
      rw [if_neg hsv]
      refine ⟨fun c hc => ?_, fun a ha hr => ?_⟩
      · rw [ite_self] at hc
        exact Option.noConfusion hc
      · rcases List.mem_append.mp ha with ha | ha
        · exact hatt a ha hr
        · rw [List.mem_singleton.mp ha]
  | settle ok =>
    cases hf : st.inFlight with
    | none =>
      simp only [asStep, hf]
      exact ⟨hdeb, hatt⟩
    | some payload =>
      cases ok with
      | true =>
        simp only [asStep, hf]
        exact ⟨fun c hc => Option.noConfusion hc, hatt⟩
      | false =>
        simp only [asStep, hf]
        rw [if_neg (by exact Bool.false_ne_true)]
        by_cases hrc : st.retryCount < mr
        · rw [if_pos hrc]
          exact ⟨hdeb, hatt⟩
        · rw [if_neg hrc]
          exact ⟨fun c hc => Option.noConfusion hc, hatt⟩

/-- asRun preserves the debounce-freshness invariant. -/
theorem freshInv_run (mr : Nat) (st : ASState) (evs : List AEvent) (h : freshInv st) :
    freshInv (asRun mr st evs) := by
  induction evs generalizing st with
  | nil => exact h
  | cons e evs ih => exact ih (asStep mr st e) (freshInv_step mr st e h)

/-- C2 counterexample: edit to A then B, the debounced commit of B fails,
an edit to C arrives during the retry wait, and the retry then commits
payload B while the latest observed value is C - a stale payload is
committed, contradicting the claim. -/
theorem c2_counterexample :
    (asRun 3 (asInit "") evsC2).attempts =
      [⟨"B", "B", false⟩, ⟨"B", "C", true⟩] ∧
    ("B" : String) ≠ "C" :=
  ⟨rfl, by decide⟩

/-- C2 as amended: every commit attempt started by the debounce timer or
by flush carries the most recently observed value at the moment the
attempt starts; only retry attempts re-invoke the closure captured by the
failed attempt and can carry a stale payload. -/
theorem c2_amended (mr : Nat) (d : String) (evs : List AEvent) (a : AttemptRec)
    (ha : a ∈ (asRun mr (asInit d) evs).attempts) (hr : a.viaRetry = false) :
    a.payload = a.latestAtStart := by
  have hinit : freshInv (asInit d) := by
    constructor
    · intro c hc
      simp [asInit] at hc
    · intro a ha
      simp [asInit] at ha
  exact (freshInv_run mr (asInit d) evs hinit).2 a ha hr

/-- C2 amended witness: the debounce-started attempt in the concrete trace
carries the latest observed value. -/
theorem c2_amended_witness :
    (⟨"B", "B", false⟩ : AttemptRec).payload =
      (⟨"B", "B", false⟩ : AttemptRec).latestAtStart :=
  c2_amended 3 "" [.observe "A", .observe "B", .debounceFire] ⟨"B", "B", false⟩
    (by decide) rfl

/-- C5 counterexample: with maxRetries = 3, after the commit function has
failed exactly 3 consecutive times the status is still saving, the retry
counter holds 3, and a retry timer is armed, so a further commit attempt
will start automatically - the claim's exhaustion condition has not been
reached after maxRetries failures. -/
theorem c5_counterexample :
    (asRun 3 (asInit "") evsC5).attempts.length = 3 ∧
    (asRun 3 (asInit "") evsC5).saveStatus ≠ SaveStat.error ∧
    (asRun 3 (asInit "") evsC5).retryCount = 3 ∧
    (asRun 3 (asInit "") evsC5).retryTimer = some "B" := by
  refine ⟨rfl, ?_, rfl, rfl⟩
  decide

/-- C5 as amended: exhaustion happens on the failure of the attempt made
with the retry counter already at maxRetries - that is, after
maxRetries + 1 consecutive commit-function failures (the initial attempt
plus maxRetries retries).  At that point status becomes error, the retry
counter resets to zero, no retry is scheduled and the pending debounce
timer is cancelled; and from any state with no armed timer and no
in-flight commit, no commit attempt starts without a further observe or
flush. -/
theorem c5_amended :
    (∀ (mr : Nat) (st : ASState) (p : String),
      st.inFlight = some p → st.retryCount = mr →
      (asStep mr st (.settle false)).saveStatus = .error ∧
      (asStep mr st (.settle false)).retryCount = 0 ∧
      (asStep mr st (.settle false)).retryTimer = st.retryTimer ∧
      (asStep mr st (.settle false)).debounceTimer = none) ∧
    (∀ (mr : Nat) (st : ASState) (evs : List AEvent),
      st.debounceTimer = none → st.retryTimer = none → st.inFlight = none →
      evs.all isAutoEvent = true → asRun mr st evs = st) := by
  constructor
  · intro mr st p hf hrc
    have hlt : ¬st.retryCount < mr := by rw [hrc]; exact lt_irrefl mr
    simp [asStep, hf, hlt]
  · intro mr st evs hdeb hretry hflight hauto
    induction evs with
    | nil => rfl
    | cons e evs ih =>
      simp only [List.all_cons, Bool.and_eq_true] at hauto
      have hstep : asStep mr st e = st := by
        cases e with
        | observe s => simp [isAutoEvent] at hauto
        | flush => simp [isAutoEvent] at hauto
        | debounceFire => simp [asStep, hdeb]
        | retryFire => simp [asStep, hretry]
        | settle ok => simp [asStep, hflight]
      show asRun mr (asStep mr st e) evs = st
      rw [hstep]
      exact ih hauto.2

/-- C5 amended witness: a concrete exhaustion step (retry counter already
at maxRetries = 3, in-flight commit fails) ends in error with the counter
reset and nothing scheduled, and a quiescent state absorbs automatic
events. -/
theorem c5_amended_witness :
    ((asStep 3 (asRun 3 (asInit "") (evsC5 ++ [.retryFire])) (.settle false)).saveStatus =
        SaveStat.error ∧
      (asStep 3 (asRun 3 (asInit "") (evsC5 ++ [.retryFire])) (.settle false)).retryCount = 0) ∧
    asRun 3 (asInit "X") [.debounceFire, .retryFire, .settle false] = asInit "X" := by
  refine ⟨⟨?_, ?_⟩, ?_⟩
  · exact (c5_amended.1 3 (asRun 3 (asInit "") (evsC5 ++ [.retryFire])) "B" (by rfl) (by rfl)).1
  · exact (c5_amended.1 3 (asRun 3 (asInit "") (evsC5 ++ [.retryFire])) "B" (by rfl) (by rfl)).2.1
  · exact c5_amended.2 3 (asInit "X") [.debounceFire, .retryFire, .settle false]
      (by rfl) (by rfl) (by rfl) (by rfl)

theorem utf8Len_append (l1 l2 : List Char) :
    utf8Len (l1 ++ l2) = utf8Len l1 + utf8Len l2 := by
  induction l1 with
  | nil => simp [utf8Len]
  | cons c cs ih =>
    show c.utf8Size + utf8Len (cs ++ l2) = c.utf8Size + utf8Len cs + utf8Len l2
    rw [ih]
    omega

theorem blobSize_append (a b : String) :
    blobSize (a ++ b) = blobSize a + blobSize b := by
  simp only [blobSize, String.data_append, utf8Len_append]

theorem escFold_repl (n : Nat) :
    (List.replicate n 'a').foldr (fun c acc => jsonEscapeChar c ++ acc) [] =
      List.replicate n 'a' := by
  induction n with
  | zero => rfl
  | succ n ih =>
    simp only [List.replicate_succ, List.foldr_cons, ih]
    rw [show jsonEscapeChar 'a' = ['a'] from by decide]
    rfl

theorem utf8Len_repl (n : Nat) : utf8Len (List.replicate n 'a') = n := by
  induction n with
  | zero => rfl
  | succ n ih =>
    simp only [List.replicate_succ, utf8Len, ih]
    rw [show Char.utf8Size 'a' = 1 from by decide]
    omega

theorem blobSize_bigContent : blobSize (jsonEscape bigContent) = bigN := by
  have h1 : jsonEscape bigContent = String.mk (List.replicate bigN 'a') :=
    congrArg String.mk (escFold_repl bigN)
  rw [h1]
  show utf8Len (List.replicate bigN 'a') = bigN
  exact utf8Len_repl bigN

theorem bigMemo_over_quota :
    blobSize (serializeMemos iso0 [bigMemo]) > STORAGE_QUOTA_LIMIT := by
  have h1 : serializeMemos iso0 [bigMemo] = "[" ++ serializeMemo iso0 bigMemo ++ "]" := rfl
  rw [h1]
  simp only [serializeMemo, blobSize_append]
  rw [show blobSize (jsonEscape bigMemo.content) = bigN from blobSize_bigContent]
  simp only [STORAGE_QUOTA_LIMIT, bigN]
  omega

/-- C3: persisting a collection whose serialized byte size exceeds the
5 MiB quota fails with QuotaExceeded and leaves the previously stored
value unchanged (nothing is written); a collection within the quota fully
replaces the prior stored value. -/
theorem c3_quota (iso : Int → String) (raw : Raw) (ms : List Memo) :
    (blobSize (serializeMemos iso ms) > STORAGE_QUOTA_LIMIT →
      saveMemos iso ms = .error ⟨.QUOTA_EXCEEDED, STORAGE_QUOTA_EXCEEDED_MSG⟩ ∧
      persistRun iso raw ms = raw) ∧
    (blobSize (serializeMemos iso ms) ≤ STORAGE_QUOTA_LIMIT →
      saveMemos iso ms = .ok (rawOfMemos iso ms) ∧
      persistRun iso raw ms = rawOfMemos iso ms) := by
  constructor
  · intro h
    have hs : saveMemos iso ms = .error ⟨.QUOTA_EXCEEDED, STORAGE_QUOTA_EXCEEDED_MSG⟩ := by
      simp only [saveMemos]
      rw [if_pos h]
    exact ⟨hs, by simp only [persistRun, hs]⟩
  · intro h
    have hs : saveMemos iso ms = .ok (rawOfMemos iso ms) := by
      simp only [saveMemos]
      rw [if_neg (not_lt.mpr h)]
    exact ⟨hs, by simp only [persistRun, hs]⟩

/-- C3 witness: a single memo with 5 MiB + 1 bytes of content is rejected
with QuotaExceeded and the prior stored value survives; the empty
collection is written and fully replaces the prior stored value. -/
theorem c3_quota_witness :
    (saveMemos iso0 [bigMemo] = .error ⟨.QUOTA_EXCEEDED, STORAGE_QUOTA_EXCEEDED_MSG⟩ ∧
      persistRun iso0 rawAB [bigMemo] = rawAB) ∧
    (saveMemos iso0 [] = .ok (rawOfMemos iso0 []) ∧
      persistRun iso0 rawAB [] = rawOfMemos iso0 []) :=
  ⟨(c3_quota iso0 rawAB [bigMemo]).1 bigMemo_over_quota,
   (c3_quota iso0 rawAB []).2 (by decide)⟩

theorem findIdx?_append_cons {α : Type} (p : α → Bool) (m : α) (post pre : List α)
    (hm : p m = true) (hpre : ∀ x ∈ pre, p x = false) :
    ∀ i : Nat, List.findIdx? p (pre ++ m :: post) i = some (pre.length + i) := by
  induction pre with
  | nil =>
    intro i
    simp [List.findIdx?, hm]
  | cons a pre ih =>
    intro i
    have hpa : p a = false := hpre a (List.mem_cons_self a pre)
    have ih' := ih (fun y hy => hpre y (List.mem_cons_of_mem a hy))
    simp only [List.cons_append, List.findIdx?]
    rw [if_neg (by simp [hpa])]
    show List.findIdx? p (pre ++ m :: post) (i + 1) = some ((a :: pre).length + i)
    rw [ih' (i + 1)]
    simp only [List.length_cons, Option.some.injEq]
    omega

theorem set_append_cons {α : Type} (u m : α) (post : List α) :
    ∀ pre : List α, (pre ++ m :: post).set pre.length u = pre ++ u :: post := by
  intro pre
  induction pre with
  | nil => rfl
  | cons a pre ih =>
    simp only [List.cons_append, List.length_cons, List.set_cons_succ]
    rw [ih]

/-- A successful updateMemo characterized: the read collection decomposes
around the first record carrying the id, and the persisted collection is
exactly that decomposition with only this record patched (content set,
updatedAt set to now). -/
theorem updateMemoW_spec {dv : String → Int} {iso : Int → String} {now : Int} {raw : Raw}
    {idq x : String} {W : List Memo}
    (h : updateMemoW dv iso now raw idq (some x) = .ok W) :
    isValidId idq = true ∧
    ∃ ms pre m0 post,
      getMemos dv raw = .ok ms ∧
      ms = pre ++ m0 :: post ∧
      m0.id = idq ∧
      (∀ m' ∈ pre, (m'.id == idq) = false) ∧
      W = pre ++ { m0 with content := x, updatedAt := now } :: post := by
  unfold updateMemoW at h
  split at h
  · exact Except.noConfusion h
  · rename_i m0 hby
    simp only [Option.getD_some] at h
    unfold getMemoById at hby
    split at hby
    case isFalse => exact Option.noConfusion hby
    case isTrue hvalid =>
      refine ⟨hvalid, ?_⟩
      split at hby
      · exact Option.noConfusion hby
      · rename_i ms hg
        obtain ⟨hp, pre, post, hms, hpre⟩ := List.find?_eq_some.mp hby
        have hid : m0.id = idq := beq_iff_eq.mp hp
        have hpre' : ∀ m' ∈ pre, (m'.id == idq) = false := by
          intro m' hm'
          have := hpre m' hm'
          simpa using this
        refine ⟨ms, pre, m0, post, hg, hms, hid, hpre', ?_⟩
        unfold saveMemoW at h
        split at h
        · rename_i e hg2
          rw [hg] at hg2
          exact Except.noConfusion hg2
        · rename_i ms2 hg2
          rw [hg] at hg2
          have hms2 : ms2 = ms := (Except.ok.inj hg2).symm
          subst hms2
          have hfi : ms2.findIdx? (fun m =>
              m.id == ({ m0 with content := x, updatedAt := now } : Memo).id) =
              some pre.length := by
            rw [hms]
            have := findIdx?_append_cons
              (fun m => m.id == ({ m0 with content := x, updatedAt := now } : Memo).id)
              m0 post pre (by simp) ?_ 0
            · simpa using this
            · intro y hy
              show (y.id == m0.id) = false
              rw [hid]
              exact hpre' y hy
          simp only [hfi] at h
          rw [hms, set_append_cons] at h
          split at h
          · exact Except.noConfusion h
          · exact (Except.ok.inj h).symm

/-- C10: a successful updateMemo(id, patch) changes only the targeted
record: the read collection splits around the first record carrying the
id, the persisted collection keeps every other record as it was (same id,
content, createdAt, updatedAt), and only the targeted record has its
content patched and updatedAt set. -/
theorem c10_frame (dv : String → Int) (iso : Int → String) (now : Int) (raw : Raw)
    (idq x : String) (W : List Memo)
    (h : updateMemoW dv iso now raw idq (some x) = .ok W) :
    ∃ ms pre m0 post,
      getMemos dv raw = .ok ms ∧
      ms = pre ++ m0 :: post ∧
      m0.id = idq ∧
      (∀ m' ∈ pre, (m'.id == idq) = false) ∧
      W = pre ++ { m0 with content := x, updatedAt := now } :: post ∧
      (∀ m' ∈ ms, m'.id ≠ idq → m' ∈ W) ∧
      (∀ m' ∈ W, m'.id ≠ idq → m' ∈ ms) := by
  obtain ⟨_, ms, pre, m0, post, hg, hms, hid, hpre, hW⟩ := updateMemoW_spec h
  refine ⟨ms, pre, m0, post, hg, hms, hid, hpre, hW, ?_, ?_⟩
  · intro m' hm' hne
    rw [hms] at hm'
    rw [hW]
    rcases List.mem_append.mp hm' with hm' | hm'
    · exact List.mem_append_left _ hm'
    · rcases List.mem_cons.mp hm' with hm' | hm'
      · exact absurd (hm' ▸ hid) hne
      · exact List.mem_append_right _ (List.mem_cons_of_mem _ hm')
  · intro m' hm' hne
    rw [hW] at hm'
    rw [hms]
    rcases List.mem_append.mp hm' with hm' | hm'
    · exact List.mem_append_left _ hm'
    · rcases List.mem_cons.mp hm' with hm' | hm'
      · exact absurd (hm' ▸ hid) hne
      · exact List.mem_append_right _ (List.mem_cons_of_mem _ hm')

set_option maxRecDepth 4000 in
/-- C10 witness: updating Note A in a two-memo store persists Note B
untouched and only Note A patched. -/
theorem c10_frame_witness :
    ∃ ms pre m0 post,
      getMemos dv0 rawAB = .ok ms ∧
      ms = pre ++ m0 :: post ∧
      m0.id = uuidA ∧
      (∀ m' ∈ pre, (m'.id == uuidA) = false) ∧
      [⟨uuidB, "Note B", 4, 4⟩, ⟨uuidA, "New", 2, 5⟩] =
        pre ++ { m0 with content := "New", updatedAt := 5 } :: post ∧
      (∀ m' ∈ ms, m'.id ≠ uuidA → m' ∈ [⟨uuidB, "Note B", 4, 4⟩, ⟨uuidA, "New", 2, 5⟩]) ∧
      (∀ m' ∈ ([⟨uuidB, "Note B", 4, 4⟩, ⟨uuidA, "New", 2, 5⟩] : List Memo),
        m'.id ≠ uuidA → m' ∈ ms) :=
  c10_frame dv0 iso0 5 rawAB uuidA "New" [⟨uuidB, "Note B", 4, 4⟩, ⟨uuidA, "New", 2, 5⟩]
    (by rfl)

theorem valid_id_of_isValidMemoData {v : JValue} (h : isValidMemoData v = true) :
    isValidId (getStrD v "id") = true := by
  unfold isValidMemoData at h
  split at h
  · rename_i i c ca ua hi hc hca hua
    unfold getStrD
    rw [hi]
    exact h
  · exact Bool.noConfusion h

/-- Every memo returned by a successful read carries a valid id. -/
theorem getMemos_valid_ids {dv : String → Int} {raw : Raw} {ms : List Memo}
    (h : getMemos dv raw = .ok ms) : ∀ m ∈ ms, isValidId m.id = true := by
  match raw with
  | none =>
    simp only [getMemos, Except.ok.injEq] at h
    rw [← h]
    intro m hm
    exact absurd hm (List.not_mem_nil m)
  | some (.error _) => exact Except.noConfusion h
  | some (.ok (.arr items)) =>
    simp only [getMemos] at h
    split at h
    · rename_i hall
      intro m hm
      rw [← Except.ok.inj h] at hm
      have hm' : m ∈ items.map (toMemo dv) :=
        (List.perm_insertionSort memoGE _).mem_iff.mp hm
      obtain ⟨v, hv, hmv⟩ := List.mem_map.mp hm'
      have hvv : isValidMemoData v = true := List.all_eq_true.mp hall v hv
      rw [← hmv]
      exact valid_id_of_isValidMemoData hvv
    · exact Except.noConfusion h
  | some (.ok .null) => exact Except.noConfusion h
  | some (.ok (.bool b)) => exact Except.noConfusion h
  | some (.ok (.num n)) => exact Except.noConfusion h
  | some (.ok (.str s)) => exact Except.noConfusion h
  | some (.ok (.obj fs)) => exact Except.noConfusion h

theorem isValidMemoData_memoToJ (iso : Int → String) (m : Memo) :
    isValidMemoData (memoToJ iso m) = isValidId m.id := rfl

theorem toMemo_memoToJ {dv : String → Int} {iso : Int → String} (m : Memo)
    (h1 : dv (iso m.createdAt) = m.createdAt) (h2 : dv (iso m.updatedAt) = m.updatedAt) :
    toMemo dv (memoToJ iso m) = m := by
  cases m with
  | mk i c ca ua =>
    show Memo.mk i c (dv (iso ca)) (dv (iso ua)) = Memo.mk i c ca ua
    rw [h1, h2]

/-- Reading back a written collection: when every record has a valid id
and the date rendering roundtrips, getMemos returns the written records
sorted by updatedAt descending. -/
theorem getMemos_rawOf {dv : String → Int} {iso : Int → String} (W : List Memo)
    (hvalid : ∀ m ∈ W, isValidId m.id = true) (hrt : ∀ t, dv (iso t) = t) :
    getMemos dv (rawOfMemos iso W) = .ok (List.insertionSort memoGE W) := by
  have hall : (List.map (memoToJ iso) W).all isValidMemoData = true := by
    rw [List.all_eq_true]
    intro v hv
    obtain ⟨m, hm, rfl⟩ := List.mem_map.mp hv
    rw [isValidMemoData_memoToJ]
    exact hvalid m hm
  have hmaps : List.map (toMemo dv) (List.map (memoToJ iso) W) = W := by
    rw [List.map_map]
    have hpt : ∀ m ∈ W, (toMemo dv ∘ memoToJ iso) m = id m := by
      intro m _
      exact toMemo_memoToJ m (hrt m.createdAt) (hrt m.updatedAt)
    rw [List.map_congr_left hpt, List.map_id]
  simp only [getMemos, rawOfMemos, hall, if_true, hmaps]

theorem dvW_isoW (t : Int) : dvW (isoW t) = t := by
  by_cases h : t < 0
  · have hi : isoW t = String.mk ('-' :: List.replicate (-t).toNat 'a') := by
      simp [isoW, h]
    rw [hi]
    show -((((List.replicate (-t).toNat 'a').length : Nat) : Int)) = t
    rw [List.length_replicate]
    omega
  · have hi : isoW t = String.mk (List.replicate t.toNat 'a') := by
      simp [isoW, h]
    rw [hi]
    have ht := Int.toNat_of_nonneg (not_lt.mp h)
    cases hn : t.toNat with
    | zero =>
      rw [hn] at ht
      show ((([] : List Char).length : Nat) : Int) = t
      exact_mod_cast ht
    | succ n =>
      rw [hn] at ht
      show ((('a' :: List.replicate n 'a').length : Nat) : Int) = t
      rw [List.length_cons, List.length_replicate]
      exact_mod_cast ht

/-- C7: with a well-formed store (unique ids, date rendering that
roundtrips), updating the same memo twice with the same content yields,
after the second call, the same collection as after the first call except
that the targeted memo's updatedAt moves from the first call's time to
the later second call's time (the store re-sorts, hence the permutation);
the targeted memo already carried the content after the first call. -/
theorem c7_idem (dv : String → Int) (iso : Int → String) (raw : Raw) (idq x : String)
    (now1 now2 : Int) (ms W1 W2 : List Memo)
    (hrt : ∀ t, dv (iso t) = t)
    (hms : getMemos dv raw = .ok ms)
    (hnd : (ms.map Memo.id).Nodup)
    (h12 : now1 ≤ now2)
    (h1 : updateMemoW dv iso now1 raw idq (some x) = .ok W1)
    (h2 : updateMemoW dv iso now2 (rawOfMemos iso W1) idq (some x) = .ok W2) :
    W2.Perm (W1.map (fun m => if m.id = idq then { m with updatedAt := now2 } else m)) ∧
    (∀ m ∈ W1, m.id = idq → m.content = x ∧ m.updatedAt = now1) := by
  obtain ⟨hvalid, ms', pre, m0, post, hg1, hms1, hid0, hpre, hW1⟩ := updateMemoW_spec h1
  have heqms : ms' = ms := by
    have h' := hms
    rw [hg1] at h'
    exact Except.ok.inj h'
  rw [heqms] at hg1 hms1
  have hvm : ∀ m ∈ ms, isValidId m.id = true := getMemos_valid_ids hg1
  have hvW1 : ∀ m ∈ W1, isValidId m.id = true := by
    intro m hm
    rw [hW1] at hm
    rcases List.mem_append.mp hm with hm | hm
    · exact hvm m (by rw [hms1]; exact List.mem_append_left _ hm)
    · rcases List.mem_cons.mp hm with hm | hm
      · rw [hm]
        show isValidId m0.id = true
        exact hvm m0 (by rw [hms1]; exact List.mem_append_right _ (List.mem_cons_self _ _))
      · exact hvm m (by rw [hms1]; exact List.mem_append_right _ (List.mem_cons_of_mem _ hm))
  have hidsW1 : W1.map Memo.id = ms.map Memo.id := by
    rw [hW1, hms1]
    simp only [List.map_append, List.map_cons]
  have hndW1 : (W1.map Memo.id).Nodup := by
    rw [hidsW1]
    exact hnd
  have hg2' : getMemos dv (rawOfMemos iso W1) = .ok (List.insertionSort memoGE W1) :=
    getMemos_rawOf W1 hvW1 hrt
  obtain ⟨_, S, pre2, m1, post2, hg2, hS2, hid1, hpre2, hW2⟩ := updateMemoW_spec h2
  obtain rfl : S = List.insertionSort memoGE W1 := by
    rw [hg2] at hg2'
    exact Except.ok.inj hg2'
  have hSperm : (List.insertionSort memoGE W1).Perm W1 := List.perm_insertionSort memoGE W1
  have hndS : ((List.insertionSort memoGE W1).map Memo.id).Nodup :=
    (hSperm.map Memo.id).nodup_iff.mpr hndW1
  have hu1W1 : ({ m0 with content := x, updatedAt := now1 } : Memo) ∈ W1 := by
    rw [hW1]
    exact List.mem_append_right _ (List.mem_cons_self _ _)
  have hm1S : m1 ∈ List.insertionSort memoGE W1 := by
    rw [hS2]
    exact List.mem_append_right _ (List.mem_cons_self _ _)
  have hu1S : ({ m0 with content := x, updatedAt := now1 } : Memo) ∈ List.insertionSort memoGE W1 :=
    hSperm.mem_iff.mpr hu1W1
  have hm1u1 : m1 = { m0 with content := x, updatedAt := now1 } := by
    apply List.inj_on_of_nodup_map hndS hm1S hu1S
    show m1.id = ({ m0 with content := x, updatedAt := now1 } : Memo).id
    rw [hid1]
    exact hid0.symm
  have hndS2 : ((pre2 ++ m1 :: post2).map Memo.id).Nodup := by
    rw [← hS2]
    exact hndS
  have hidq_not : idq ∉ pre2.map Memo.id ++ post2.map Memo.id := by
    have hmid : (pre2.map Memo.id ++ m1.id :: post2.map Memo.id).Nodup := by
      simpa [List.map_append] using hndS2
    have hcons := List.nodup_middle.mp hmid
    have hnotin := (List.nodup_cons.mp hcons).1
    rw [hid1] at hnotin
    exact hnotin
  have hpre2' : ∀ m ∈ pre2, m.id ≠ idq := by
    intro m hm he
    have hb := hpre2 m hm
    rw [he] at hb
    simp at hb
  have hpost2 : ∀ m ∈ post2, m.id ≠ idq := by
    intro m hm he
    apply hidq_not
    apply List.mem_append_right
    rw [← he]
    exact List.mem_map_of_mem Memo.id hm
  have hmapS : (List.insertionSort memoGE W1).map
      (fun m => if m.id = idq then { m with updatedAt := now2 } else m) = W2 := by
    rw [hS2, hW2, List.map_append, List.map_cons]
    congr 1
    · have hpt : ∀ m ∈ pre2,
          (fun m => if m.id = idq then { m with updatedAt := now2 } else m) m = id m :=
        fun m hm => by
          show (if m.id = idq then { m with updatedAt := now2 } else m) = m
          rw [if_neg (hpre2' m hm)]
      rw [List.map_congr_left hpt, List.map_id]
    · congr 1
      · show (if m1.id = idq then { m1 with updatedAt := now2 } else m1) =
            { m1 with content := x, updatedAt := now2 }
        rw [if_pos hid1, hm1u1]
      · have hpt : ∀ m ∈ post2,
            (fun m => if m.id = idq then { m with updatedAt := now2 } else m) m = id m :=
          fun m hm => by
            show (if m.id = idq then { m with updatedAt := now2 } else m) = m
            rw [if_neg (hpost2 m hm)]
        rw [List.map_congr_left hpt, List.map_id]
  constructor
  · rw [← hmapS]
    exact hSperm.map _
  · intro m hm he
    have hmu : m = { m0 with content := x, updatedAt := now1 } := by
      apply List.inj_on_of_nodup_map hndW1 hm hu1W1
      show m.id = ({ m0 with content := x, updatedAt := now1 } : Memo).id
      rw [he]
      exact hid0.symm
    rw [hmu]
    exact ⟨rfl, rfl⟩

set_option maxRecDepth 8000 in
/-- C7 witness: updating Note A twice with the same content in a concrete
two-memo store; after the second call the store equals the first call's
store (up to the store's re-sorting) with only Note A's updatedAt moved
from 10 to 20. -/
theorem c7_idem_witness :
    ([⟨uuidA, "New", 2, 20⟩, ⟨uuidB, "Note B", 4, 4⟩] : List Memo).Perm
      (([⟨uuidB, "Note B", 4, 4⟩, ⟨uuidA, "New", 2, 10⟩] : List Memo).map
        (fun m => if m.id = uuidA then { m with updatedAt := 20 } else m)) ∧
    (∀ m ∈ ([⟨uuidB, "Note B", 4, 4⟩, ⟨uuidA, "New", 2, 10⟩] : List Memo),
      m.id = uuidA → m.content = "New" ∧ m.updatedAt = 10) :=
  c7_idem dvW isoW rawAB uuidA "New" 10 20
    [⟨uuidB, "Note B", 4, 4⟩, ⟨uuidA, "Note A", 2, 2⟩]
    [⟨uuidB, "Note B", 4, 4⟩, ⟨uuidA, "New", 2, 10⟩]
    [⟨uuidA, "New", 2, 20⟩, ⟨uuidB, "Note B", 4, 4⟩]
    dvW_isoW (by rfl) (by decide) (by decide) (by rfl) (by rfl)

end MemoApp
